import Mathlib

/-!
Shallow embedding of the single source file of this repository,
src/src/components/AnimatedGridBackground.jsx, together with proofs about it.

The component holds four pieces of state: two immutable cell layouts
(foreground "squares", background "backgroundSquares") and two active-id sets
(Finsets of id strings).  Randomness (Math.random) is modelled by passing the
drawn values explicitly: each place the source calls Math.random corresponds to
one explicit parameter of the embedded function.  Timer behaviour (setInterval,
setTimeout, effect cleanup) is modelled by explicit step functions on small
state records and a reachability relation.
-/

namespace AGB

/-- The fixed gradient palette DEFAULT_COLORS of the source file. -/
def DEFAULT_COLORS : List String :=
  ["from-blue-500/80 to-blue-600/80",
   "from-cyan-500/80 to-cyan-600/80",
   "from-slate-400/80 to-slate-500/80",
   "from-blue-400/80 to-cyan-500/80",
   "from-cyan-400/80 to-blue-500/80"]

/-- Embeds getRandomFrom: arr[Math.floor(Math.random() * arr.length)].  The
index k stands for the drawn value Math.floor(Math.random() * arr.length),
which in the source is always < arr.length; the default value is never used
on the real draws. -/
def getRandomFrom (arr : List String) (k : ℕ) : String :=
  arr.getD k ""

/-- Decimal digit character, code point 48 + d for a digit d < 10.  This is how
JavaScript template-literal interpolation renders each digit of a number. -/
def digitChar (d : ℕ) : Char :=
  Char.ofNat (48 + d)

/-- Decimal rendering of a natural number as a character list, with explicit
fuel to make the recursion structural.  With fuel > n this is exactly the
usual most-significant-first decimal numeral, i.e. what a JavaScript template
literal produces for a nonnegative integer. -/
def natReprAux : ℕ → ℕ → List Char
  | 0, _ => []
  | fuel + 1, n =>
    if n < 10 then [digitChar n]
    else natReprAux fuel (n / 10) ++ [digitChar (n % 10)]

/-- Decimal rendering of a natural number as a String (the interpolation of a
row or column number inside a template literal). -/
def natRepr (n : ℕ) : String :=
  String.mk (natReprAux (n + 1) n)

/-- Foreground cell id from the source: the template literal fg-row-col. -/
def fgId (row col : ℕ) : String :=
  "fg-" ++ natRepr row ++ "-" ++ natRepr col

/-- Background cell id from the source: the template literal bg-row-col. -/
def bgId (row col : ℕ) : String :=
  "bg-" ++ natRepr row ++ "-" ++ natRepr col

/-- A foreground cell, mirroring the object pushed to initialSquares:
id, row, col, isCurved, color. -/
structure Square where
  id : String
  row : ℕ
  col : ℕ
  isCurved : Bool
  color : String
  deriving DecidableEq, Repr

/-- A background cell, mirroring the object pushed to initialBackgroundSquares:
id, row, col, color.  Note there is no isCurved field at all. -/
structure BackgroundSquare where
  id : String
  row : ℕ
  col : ℕ
  color : String
  deriving DecidableEq, Repr

/-- Shape variant of a rendered tile (rounded-full vs rounded-none). -/
inductive Shape where
  | Regular : Shape
  | Rounded : Shape
  deriving DecidableEq, Repr

/-- Shape in which the renderer draws a foreground cell: rounded-full when
square.isCurved, rounded-none otherwise. -/
def fgRenderShape (sq : Square) : Shape :=
  if sq.isCurved then Shape.Rounded else Shape.Regular

/-- Shape in which the renderer draws a background cell: the background tile
class list is fixed (rounded-none on the inactive tile, no rounding class on
the active tile), independent of the cell. -/
def bgRenderShape (_sq : BackgroundSquare) : Shape :=
  Shape.Regular

/-- Number of curved foreground cells:
Math.floor((totalSquares * curvedPercentage) / 100). -/
def curvedCount (rows cols curvedPercentage : ℕ) : ℕ :=
  rows * cols * curvedPercentage / 100

/-- Embeds the while loop filling curvedIndices: each list element is one draw
Math.floor(Math.random() * totalSquares); the loop inserts draws until the set
has curvedCount elements.  The draw list is the (almost surely finite) prefix
of random draws the loop consumes; running out of fuel models a loop that has
not yet terminated. -/
def buildCurvedIndices : List ℕ → ℕ → Finset ℕ → Finset ℕ
  | [], _, acc => acc
  | d :: rest, cnt, acc =>
    if acc.card < cnt then buildCurvedIndices rest cnt (insert d acc) else acc

/-- One foreground cell as built in the double for loop; the running index of
the source equals row * cols + col (row-major order), and cd gives the color
draw for that cell. -/
def mkFgSquare (cols : ℕ) (curvedIndices : Finset ℕ) (cd : ℕ → ℕ)
    (row col : ℕ) : Square :=
  { id := fgId row col
    row := row
    col := col
    isCurved := decide ((row * cols + col) ∈ curvedIndices)
    color := getRandomFrom DEFAULT_COLORS (cd (row * cols + col)) }

/-- Embeds the foreground layout generation: the row-major double loop pushing
mkFgSquare for every (row, col) with row < rows, col < cols. -/
def generateFgSquares (rows cols : ℕ) (curvedIndices : Finset ℕ)
    (cd : ℕ → ℕ) : List Square :=
  (List.range rows).flatMap fun row =>
    (List.range cols).map fun col => mkFgSquare cols curvedIndices cd row col

/-- One background cell as built in the background double loop. -/
def mkBgSquare (cols : ℕ) (cd : ℕ → ℕ) (row col : ℕ) : BackgroundSquare :=
  { id := bgId row col
    row := row
    col := col
    color := getRandomFrom DEFAULT_COLORS (cd (row * cols + col)) }

/-- Embeds the background layout generation double loop. -/
def generateBgSquares (bgRows bgCols : ℕ) (cd : ℕ → ℕ) : List BackgroundSquare :=
  (List.range bgRows).flatMap fun row =>
    (List.range bgCols).map fun col => mkBgSquare bgCols cd row col

/-- Random draws consumed by one foreground activation round.  r3 is the value
Math.floor(Math.random() * 3) of the regular path (in the source always < 3);
pickIdx i is the i-th draw Math.floor(Math.random() * inactiveRegular.length)
of the splice loop; curvedFire is whether the curved-path draw satisfied
Math.random() < 0.3; curvedIdx is the curved-path index draw. -/
structure FgDraws where
  r3 : ℕ
  pickIdx : ℕ → ℕ
  curvedFire : Bool
  curvedIdx : ℕ

/-- Random draws consumed by one background activation round.  r2 is the value
Math.floor(Math.random() * 2) (in the source always < 2), pickIdx the per-
iteration index draws of the splice loop. -/
structure BgDraws where
  r2 : ℕ
  pickIdx : ℕ → ℕ

/-- Embeds const numToActivate = Math.min(rand + 1, maxActive - active.size):
JavaScript arithmetic is signed, so the budget is taken in ℤ; a nonpositive
numToActivate makes the for loop run zero iterations, hence toNat. -/
def numToActivate (rand maxActive card : ℕ) : ℕ :=
  (min ((rand : ℤ) + 1) ((maxActive : ℤ) - (card : ℤ))).toNat

/-- Embeds the splice-based pick loop shared by both layers, working on the
list of inactive ids (the loop reads nothing but .id of the spliced cells):
each of the fuel iterations draws pick i; if it indexes into the pool the
element is removed from the pool and its id added to the accumulated set,
otherwise the iteration adds nothing (in the source this covers both the
empty-pool guard and the undefined check on the splice result). -/
def activatePicks (pick : ℕ → ℕ) : ℕ → ℕ → List String → Finset String → Finset String
  | 0, _, _, acc => acc
  | fuel + 1, i, pool, acc =>
    match pool.get? (pick i) with
    | some id => activatePicks pick fuel (i + 1) (pool.eraseIdx (pick i)) (insert id acc)
    | none => activatePicks pick fuel (i + 1) pool acc

/-- The inactive foreground cells: squares.filter(sq => not activeSquares.has(sq.id)). -/
def inactiveSquares (squares : List Square) (active : Finset String) : List Square :=
  squares.filter fun sq => decide (sq.id ∉ active)

/-- Ids of the inactive curved foreground cells, in source order. -/
def inactiveCurvedIds (squares : List Square) (active : Finset String) : List String :=
  ((inactiveSquares squares active).filter fun sq => sq.isCurved).map fun sq => sq.id

/-- Ids of the inactive regular foreground cells, in source order. -/
def inactiveRegularIds (squares : List Square) (active : Finset String) : List String :=
  ((inactiveSquares squares active).filter fun sq => !sq.isCurved).map fun sq => sq.id

/-- The regular-cell portion of a foreground activation round: the branch
guarded by inactiveRegular.length > 0 running the splice loop numToActivate
times over the regular inactive pool, starting from the copy
newActiveIds = new Set(activeSquares). -/
def fgAfterRegular (squares : List Square) (active : Finset String)
    (maxActiveSquares : ℕ) (d : FgDraws) : Finset String :=
  if 0 < (inactiveRegularIds squares active).length then
    activatePicks d.pickIdx (numToActivate d.r3 maxActiveSquares active.card) 0
      (inactiveRegularIds squares active) active
  else active

/-- One full foreground activation round: the regular branch followed by the
curved branch (inactiveCurved.length > 0 && Math.random() < 0.3, then one
indexed pick added regardless of budget).  The result is the committed
newActiveIds passed to setActiveSquares. -/
def fgRound (squares : List Square) (active : Finset String)
    (maxActiveSquares : ℕ) (d : FgDraws) : Finset String :=
  let afterRegular := fgAfterRegular squares active maxActiveSquares d
  if 0 < (inactiveCurvedIds squares active).length ∧ d.curvedFire = true then
    match (inactiveCurvedIds squares active).get? d.curvedIdx with
    | some cid => insert cid afterRegular
    | none => afterRegular
  else afterRegular

/-- Ids of the inactive background cells, in source order. -/
def inactiveBgIds (bgSquares : List BackgroundSquare) (active : Finset String) : List String :=
  (bgSquares.filter fun sq => decide (sq.id ∉ active)).map fun sq => sq.id

/-- One background activation round: if the inactive pool is empty the round
returns early leaving the set unchanged; otherwise the splice loop runs
numToActivate = Math.min(rand + 1, maxBackgroundActive - active.size) times. -/
def bgRoundSet (bgSquares : List BackgroundSquare) (active : Finset String)
    (maxBackgroundActive : ℕ) (d : BgDraws) : Finset String :=
  if (inactiveBgIds bgSquares active).length = 0 then active
  else
    activatePicks d.pickIdx (numToActivate d.r2 maxBackgroundActive active.card) 0
      (inactiveBgIds bgSquares active) active

/-- Embeds the deferred setTimeout callback shared (up to layer) by both
effects: updated starts as a copy of prev, then for every id of the captured
snapshot newActiveIds, the id is deleted when !prev.has(id) (a no-op delete)
or when the fresh draw Math.random() > 0.3 says to remove it.  removeDraw id
is that per-id draw outcome. -/
def deactivationStep (newActiveIds prev : Finset String)
    (removeDraw : String → Bool) : Finset String :=
  prev.filter fun id => ¬(id ∈ newActiveIds ∧ removeDraw id = true)

/-- State of one layer's simulated timer loop: the current active-id set and
the queue of snapshots captured by not-yet-fired setTimeout deactivations,
oldest first. -/
structure LoopSim where
  active : Finset String
  pending : List (Finset String)
  deriving DecidableEq

/-- One foreground setInterval tick: commit the round's newActiveIds and
schedule its deactivation (the setTimeout capturing that snapshot). -/
def fgTickSim (squares : List Square) (maxActiveSquares : ℕ) (d : FgDraws)
    (s : LoopSim) : LoopSim :=
  { active := fgRound squares s.active maxActiveSquares d
    pending := s.pending ++ [fgRound squares s.active maxActiveSquares d] }

/-- One background setInterval tick: when the inactive pool is empty the
callback returns before scheduling anything, otherwise it commits the round
and schedules its deactivation. -/
def bgTickSim (bgSquares : List BackgroundSquare) (maxBackgroundActive : ℕ)
    (d : BgDraws) (s : LoopSim) : LoopSim :=
  if (inactiveBgIds bgSquares s.active).length = 0 then s
  else
    { active := bgRoundSet bgSquares s.active maxBackgroundActive d
      pending := s.pending ++ [bgRoundSet bgSquares s.active maxBackgroundActive d] }

/-- The oldest pending deferred deactivation fires: its captured snapshot is
applied to the current set with fresh per-id removal draws.  With no pending
callback nothing happens. -/
def fireSim (removeDraw : String → Bool) (s : LoopSim) : LoopSim :=
  match s.pending with
  | [] => s
  | snap :: rest => { active := deactivationStep snap s.active removeDraw, pending := rest }

/-- States of the foreground loop reachable from the initial empty active set
by interval ticks and deactivation firings, over every outcome of the random
draws.  Tick and fire steps may interleave in any order, reflecting that the
source leaves the relative order of a round's deactivation and the next
round's activation unspecified (both are due one interval later). -/
inductive FgReach (squares : List Square) (maxActiveSquares : ℕ) : LoopSim → Prop where
  | init : FgReach squares maxActiveSquares { active := ∅, pending := [] }
  | tick (s : LoopSim) (d : FgDraws) :
      FgReach squares maxActiveSquares s →
      FgReach squares maxActiveSquares (fgTickSim squares maxActiveSquares d s)
  | fire (s : LoopSim) (removeDraw : String → Bool) :
      FgReach squares maxActiveSquares s →
      FgReach squares maxActiveSquares (fireSim removeDraw s)

/-- States of the background loop reachable from the initial empty active set,
analogously to FgReach. -/
inductive BgReach (bgSquares : List BackgroundSquare) (maxBackgroundActive : ℕ) : LoopSim → Prop where
  | init : BgReach bgSquares maxBackgroundActive { active := ∅, pending := [] }
  | tick (s : LoopSim) (d : BgDraws) :
      BgReach bgSquares maxBackgroundActive s →
      BgReach bgSquares maxBackgroundActive (bgTickSim bgSquares maxBackgroundActive d s)
  | fire (s : LoopSim) (removeDraw : String → Bool) :
      BgReach bgSquares maxBackgroundActive s →
      BgReach bgSquares maxBackgroundActive (fireSim removeDraw s)

/-- State of one layer's effect as the host event loop sees it: whether the
repeating interval is still registered, the deferred setTimeout callbacks
still pending (each holding its captured snapshot and, at firing time, its
per-id removal draws), and the active-id set. -/
structure ComponentState where
  intervalActive : Bool
  pending : List (Finset String × (String → Bool))
  active : Finset String

/-- Embeds the effect cleanup, which is exactly () => clearInterval(interval):
the repeating interval is cancelled; the setTimeout handles are not retained
anywhere, so no pending deferred deactivation is cancelled. -/
def cleanup (s : ComponentState) : ComponentState :=
  { s with intervalActive := false }

/-- The host event loop fires the oldest due setTimeout callback.  A setTimeout
registered before cleanup fires regardless of the interval having been
cleared, since clearInterval affects only the interval timer. -/
def fireTimeout (s : ComponentState) : ComponentState :=
  match s.pending with
  | [] => s
  | (snap, removeDraw) :: rest =>
    { s with active := deactivationStep snap s.active removeDraw, pending := rest }

/-- Color-draw assignment used for concrete test layouts: every cell draws
palette index 0. -/
def cdZero : ℕ → ℕ :=
  fun _ => 0

/-- A concrete 2 by 2 foreground layout with no curved cells. -/
def sq22 : List Square :=
  generateFgSquares 2 2 ∅ cdZero

/-- A concrete 1 by 2 foreground layout in which both cells are curved: the
configuration rows = 1, cols = 2, curvedPercentage = 100, with the sampling
loop drawing indices 0 then 1. -/
def curvedOnly12 : List Square :=
  generateFgSquares 1 2 (buildCurvedIndices [0, 1] (curvedCount 1 2 100) ∅) cdZero

/-- A concrete 1 by 1 background layout. -/
def bg11 : List BackgroundSquare :=
  generateBgSquares 1 1 cdZero

/-- Foreground draws: regular-count draw 0 (so one regular activation is
attempted), all index draws 0, curved path not firing. -/
def drawRegOnly : FgDraws :=
  { r3 := 0, pickIdx := fun _ => 0, curvedFire := false, curvedIdx := 0 }

/-- Foreground draws: curved path firing with index draw 0. -/
def drawCurved : FgDraws :=
  { r3 := 0, pickIdx := fun _ => 0, curvedFire := true, curvedIdx := 0 }

/-- A reachable foreground loop state over curvedOnly12 with cap 0: one tick
activating a curved cell, its deactivation firing with every per-id draw
keeping the id (Math.random() less than 0.3 for each), then a second tick
activating the other curved cell. -/
def fgOverCapState : LoopSim :=
  fgTickSim curvedOnly12 0 drawCurved
    (fireSim (fun _ => false) (fgTickSim curvedOnly12 0 drawCurved { active := ∅, pending := [] }))

/-- A component state about to be torn down: one id active, the interval
running, and the deferred deactivation of the round that activated that id
still pending, its per-id removal draws all saying remove
(Math.random() greater than 0.3). -/
def teardownStart : ComponentState :=
  { intervalActive := true
    pending := [({"fg-0-0"}, fun _ => true)]
    active := {"fg-0-0"} }

/-- Reads a most-significant-first decimal character list back as a number;
used only to prove that decimal rendering is injective. -/
def parseDigits (cs : List Char) : ℕ :=
  cs.foldl (fun acc c => acc * 10 + (c.toNat - 48)) 0

lemma digitChar_ne_dash {d : ℕ} (hd : d < 10) : digitChar d ≠ '-' := by
  interval_cases d <;> decide

lemma toNat_digitChar {d : ℕ} (hd : d < 10) : (digitChar d).toNat = 48 + d := by
  interval_cases d <;> decide

lemma natReprAux_parse : ∀ fuel n, n < fuel → parseDigits (natReprAux fuel n) = n := by
  intro fuel
  induction fuel with
  | zero => intro n h; omega
  | succ fuel ih =>
    intro n h
    by_cases h10 : n < 10
    · simp [natReprAux, h10, parseDigits, List.foldl, toNat_digitChar h10]
    · have hdiv : n / 10 < n := Nat.div_lt_self (by omega) (by omega)
      have hfuel : n / 10 < fuel := by omega
      have hmod : n % 10 < 10 := Nat.mod_lt n (by omega)
      simp only [natReprAux, h10, if_false]
      rw [parseDigits, List.foldl_append]
      simp only [List.foldl]
      rw [← parseDigits, ih _ hfuel, toNat_digitChar hmod]
      have := Nat.div_add_mod n 10
      omega

lemma dash_not_mem_natReprAux : ∀ fuel n, '-' ∉ natReprAux fuel n := by
  intro fuel
  induction fuel with
  | zero => intro n; simp [natReprAux]
  | succ fuel ih =>
    intro n
    by_cases h10 : n < 10
    · simp [natReprAux, h10]
      exact fun h => (digitChar_ne_dash h10) h.symm
    · have hmod : n % 10 < 10 := Nat.mod_lt n (by omega)
      simp only [natReprAux, h10, if_false, List.mem_append, List.mem_singleton]
      rintro (h | h)
      · exact ih _ h
      · exact (digitChar_ne_dash hmod) h.symm

lemma natRepr_inj {m n : ℕ} (h : natRepr m = natRepr n) : m = n := by
  have hd : natReprAux (m + 1) m = natReprAux (n + 1) n := congrArg String.data h
  calc m = parseDigits (natReprAux (m + 1) m) := (natReprAux_parse _ _ (Nat.lt_succ_self m)).symm
    _ = parseDigits (natReprAux (n + 1) n) := by rw [hd]
    _ = n := natReprAux_parse _ _ (Nat.lt_succ_self n)

lemma append_dash_cancel : ∀ (a c b d : List Char), '-' ∉ a → '-' ∉ c →
    a ++ '-' :: b = c ++ '-' :: d → a = c ∧ b = d := by
  intro a
  induction a with
  | nil =>
    intro c b d _ hc h
    cases c with
    | nil => simpa using h
    | cons y c' =>
      simp only [List.nil_append, List.cons_append, List.cons.injEq] at h
      exact absurd (h.1 ▸ List.mem_cons_self y c') hc
  | cons x a' ih =>
    intro c b d ha hc h
    cases c with
    | nil =>
      simp only [List.cons_append, List.nil_append, List.cons.injEq] at h
      exact absurd (h.1 ▸ List.mem_cons_self x a') ha
    | cons y c' =>
      simp only [List.cons_append, List.cons.injEq] at h
      obtain ⟨hxy, htl⟩ := h
      obtain ⟨h1, h2⟩ := ih c' b d (fun hm => ha (List.mem_cons_of_mem x hm))
        (fun hm => hc (List.mem_cons_of_mem y hm)) htl
      exact ⟨by rw [hxy, h1], h2⟩

lemma fgId_data (r c : ℕ) :
    (fgId r c).data = 'f' :: 'g' :: '-' :: (natReprAux (r + 1) r ++ '-' :: natReprAux (c + 1) c) := by
  simp [fgId, natRepr, List.append_assoc]

lemma fgId_inj {r c r' c' : ℕ} (h : fgId r c = fgId r' c') : r = r' ∧ c = c' := by
  have hd := congrArg String.data h
  rw [fgId_data, fgId_data] at hd
  simp only [List.cons.injEq, true_and] at hd
  obtain ⟨h1, h2⟩ := append_dash_cancel _ _ _ _ (dash_not_mem_natReprAux _ _)
    (dash_not_mem_natReprAux _ _) hd
  exact ⟨natRepr_inj (congrArg String.mk h1), natRepr_inj (congrArg String.mk h2)⟩

lemma bgId_data (r c : ℕ) :
    (bgId r c).data = 'b' :: 'g' :: '-' :: (natReprAux (r + 1) r ++ '-' :: natReprAux (c + 1) c) := by
  simp [bgId, natRepr, List.append_assoc]

lemma bgId_inj {r c r' c' : ℕ} (h : bgId r c = bgId r' c') : r = r' ∧ c = c' := by
  have hd := congrArg String.data h
  rw [bgId_data, bgId_data] at hd
  simp only [List.cons.injEq, true_and] at hd
  obtain ⟨h1, h2⟩ := append_dash_cancel _ _ _ _ (dash_not_mem_natReprAux _ _)
    (dash_not_mem_natReprAux _ _) hd
  exact ⟨natRepr_inj (congrArg String.mk h1), natRepr_inj (congrArg String.mk h2)⟩

end AGB

namespace AGB

lemma generateFgSquares_succ (rows cols : ℕ) (S : Finset ℕ) (cd : ℕ → ℕ) :
    generateFgSquares (rows + 1) cols S cd =
      generateFgSquares rows cols S cd ++
        (List.range cols).map (mkFgSquare cols S cd rows) := by
  unfold generateFgSquares
  rw [List.range_succ, List.flatMap_append, List.flatMap_singleton]

lemma fg_linear_indices (rows cols : ℕ) (S : Finset ℕ) (cd : ℕ → ℕ) :
    (generateFgSquares rows cols S cd).map (fun sq => sq.row * cols + sq.col) =
      List.range (rows * cols) := by
  induction rows with
  | zero => simp [generateFgSquares]
  | succ rows ih =>
    rw [generateFgSquares_succ, List.map_append, ih, List.map_map, Nat.succ_mul,
      List.range_add]
    congr 1

lemma length_generateFgSquares (rows cols : ℕ) (S : Finset ℕ) (cd : ℕ → ℕ) :
    (generateFgSquares rows cols S cd).length = rows * cols := by
  have h := congrArg List.length (fg_linear_indices rows cols S cd)
  simpa using h

lemma fg_ids (rows cols : ℕ) (S : Finset ℕ) (cd : ℕ → ℕ) :
    (generateFgSquares rows cols S cd).map (fun sq => sq.id) =
      (List.range rows).flatMap fun r => (List.range cols).map fun c => fgId r c := by
  unfold generateFgSquares
  rw [List.map_flatMap]
  congr 1
  funext r
  rw [List.map_map]
  rfl

lemma fg_ids_nodup (rows cols : ℕ) (S : Finset ℕ) (cd : ℕ → ℕ) :
    ((generateFgSquares rows cols S cd).map (fun sq => sq.id)).Nodup := by
  rw [fg_ids, List.nodup_flatMap]
  constructor
  · intro r _
    exact (List.nodup_range cols).map fun c c' h => (fgId_inj h).2
  · have hr : (List.range rows).Pairwise (· ≠ ·) := List.nodup_range rows
    apply hr.imp
    intro r r' hne
    intro a ha ha'
    obtain ⟨c, _, hc⟩ := List.mem_map.mp ha
    obtain ⟨c', _, hc'⟩ := List.mem_map.mp ha'
    exact hne (fgId_inj (hc.trans hc'.symm)).1

lemma mem_generateFgSquares {rows cols : ℕ} {S : Finset ℕ} {cd : ℕ → ℕ} {sq : Square} :
    sq ∈ generateFgSquares rows cols S cd ↔
      ∃ r, r < rows ∧ ∃ c, c < cols ∧ sq = mkFgSquare cols S cd r c := by
  simp only [generateFgSquares, List.mem_flatMap, List.mem_map, List.mem_range]
  constructor
  · rintro ⟨r, hr, c, hc, rfl⟩
    exact ⟨r, hr, c, hc, rfl⟩
  · rintro ⟨r, hr, c, hc, rfl⟩
    exact ⟨r, hr, c, hc, rfl⟩

lemma countP_range_mem (S : Finset ℕ) (N : ℕ) :
    (List.range N).countP (fun i => decide (i ∈ S)) = (S ∩ Finset.range N).card := by
  induction N with
  | zero => simp
  | succ n ih =>
    rw [List.range_succ, List.countP_append, ih, Finset.range_succ]
    by_cases h : n ∈ S
    · rw [Finset.inter_insert_of_mem h, Finset.card_insert_of_not_mem (by simp)]
      simp [List.countP_cons, h]
    · rw [Finset.inter_insert_of_not_mem h]
      simp [List.countP_cons, h]

lemma fg_curved_filter (rows cols : ℕ) (S : Finset ℕ) (cd : ℕ → ℕ) :
    ((generateFgSquares rows cols S cd).filter fun sq => sq.isCurved).length =
      (S ∩ Finset.range (rows * cols)).card := by
  rw [← List.countP_eq_length_filter]
  have h1 : (generateFgSquares rows cols S cd).countP (fun sq => sq.isCurved) =
      (generateFgSquares rows cols S cd).countP
        (fun sq => decide ((sq.row * cols + sq.col) ∈ S)) := by
    apply List.countP_congr
    intro sq hsq
    obtain ⟨r, _, c, _, rfl⟩ := mem_generateFgSquares.mp hsq
    simp [mkFgSquare]
  rw [h1, ← countP_range_mem, ← fg_linear_indices rows cols S cd, List.countP_map]
  rfl

lemma buildCurvedIndices_subset :
    ∀ (draws : List ℕ) (cnt : ℕ) (acc : Finset ℕ),
      buildCurvedIndices draws cnt acc ⊆ acc ∪ draws.toFinset := by
  intro draws
  induction draws with
  | nil => intro cnt acc; simp [buildCurvedIndices]
  | cons d rest ih =>
    intro cnt acc
    unfold buildCurvedIndices
    by_cases h : acc.card < cnt
    · simp only [h, if_true]
      refine (ih cnt (insert d acc)).trans ?_
      intro x hx
      simp only [Finset.mem_union, Finset.mem_insert, List.toFinset_cons] at hx ⊢
      tauto
    · simp only [h, if_false]
      intro x hx
      simp [hx]

end AGB

namespace AGB

lemma generateBgSquares_succ (rows cols : ℕ) (cd : ℕ → ℕ) :
    generateBgSquares (rows + 1) cols cd =
      generateBgSquares rows cols cd ++ (List.range cols).map (mkBgSquare cols cd rows) := by
  unfold generateBgSquares
  rw [List.range_succ, List.flatMap_append, List.flatMap_singleton]

lemma bg_linear_indices (rows cols : ℕ) (cd : ℕ → ℕ) :
    (generateBgSquares rows cols cd).map (fun sq => sq.row * cols + sq.col) =
      List.range (rows * cols) := by
  induction rows with
  | zero => simp [generateBgSquares]
  | succ rows ih =>
    rw [generateBgSquares_succ, List.map_append, ih, List.map_map, Nat.succ_mul,
      List.range_add]
    congr 1

lemma length_generateBgSquares (rows cols : ℕ) (cd : ℕ → ℕ) :
    (generateBgSquares rows cols cd).length = rows * cols := by
  have h := congrArg List.length (bg_linear_indices rows cols cd)
  simpa using h

lemma bg_ids (rows cols : ℕ) (cd : ℕ → ℕ) :
    (generateBgSquares rows cols cd).map (fun sq => sq.id) =
      (List.range rows).flatMap fun r => (List.range cols).map fun c => bgId r c := by
  unfold generateBgSquares
  rw [List.map_flatMap]
  congr 1
  funext r
  rw [List.map_map]
  rfl

lemma bg_ids_nodup (rows cols : ℕ) (cd : ℕ → ℕ) :
    ((generateBgSquares rows cols cd).map (fun sq => sq.id)).Nodup := by
  rw [bg_ids, List.nodup_flatMap]
  constructor
  · intro r _
    exact (List.nodup_range cols).map fun c c' h => (bgId_inj h).2
  · have hr : (List.range rows).Pairwise (· ≠ ·) := List.nodup_range rows
    apply hr.imp
    intro r r' hne
    intro a ha ha'
    obtain ⟨c, _, hc⟩ := List.mem_map.mp ha
    obtain ⟨c', _, hc'⟩ := List.mem_map.mp ha'
    exact hne (bgId_inj (hc.trans hc'.symm)).1

lemma subset_activatePicks (pick : ℕ → ℕ) :
    ∀ (fuel i : ℕ) (pool : List String) (acc : Finset String),
      acc ⊆ activatePicks pick fuel i pool acc := by
  intro fuel
  induction fuel with
  | zero => intro i pool acc; exact Finset.Subset.refl acc
  | succ fuel ih =>
    intro i pool acc
    unfold activatePicks
    cases hget : pool.get? (pick i) with
    | none => exact ih (i + 1) pool acc
    | some id =>
      exact (Finset.subset_insert id acc).trans (ih (i + 1) (pool.eraseIdx (pick i)) (insert id acc))

lemma activatePicks_card_le (pick : ℕ → ℕ) :
    ∀ (fuel i : ℕ) (pool : List String) (acc : Finset String),
      (activatePicks pick fuel i pool acc).card ≤ acc.card + fuel := by
  intro fuel
  induction fuel with
  | zero => intro i pool acc; simp [activatePicks]
  | succ fuel ih =>
    intro i pool acc
    unfold activatePicks
    cases hget : pool.get? (pick i) with
    | none => exact (ih (i + 1) pool acc).trans (by omega)
    | some id =>
      refine (ih (i + 1) (pool.eraseIdx (pick i)) (insert id acc)).trans ?_
      have := Finset.card_insert_le id acc
      omega

lemma activatePicks_subset_union (pick : ℕ → ℕ) :
    ∀ (fuel i : ℕ) (pool : List String) (acc : Finset String),
      activatePicks pick fuel i pool acc ⊆ acc ∪ pool.toFinset := by
  intro fuel
  induction fuel with
  | zero => intro i pool acc; simp [activatePicks]
  | succ fuel ih =>
    intro i pool acc
    unfold activatePicks
    cases hget : pool.get? (pick i) with
    | none => exact (ih (i + 1) pool acc).trans (Finset.union_subset_union_right (by rfl))
    | some id =>
      refine (ih (i + 1) (pool.eraseIdx (pick i)) (insert id acc)).trans ?_
      have hid : id ∈ pool := List.get?_mem hget
      have herase : (pool.eraseIdx (pick i)) ⊆ pool := List.eraseIdx_subset pool (pick i)
      intro x hx
      simp only [Finset.mem_union, Finset.mem_insert, List.mem_toFinset] at hx ⊢
      rcases hx with (rfl | hx) | hx
      · exact Or.inr hid
      · exact Or.inl hx
      · exact Or.inr (herase hx)

lemma sdiff_card_insert_le (a : String) (s base : Finset String) :
    ((insert a s) \ base).card ≤ (s \ base).card + 1 := by
  have hsub : (insert a s) \ base ⊆ insert a (s \ base) := by
    intro x hx
    simp only [Finset.mem_sdiff, Finset.mem_insert] at hx ⊢
    tauto
  exact (Finset.card_le_card hsub).trans (Finset.card_insert_le a (s \ base))

lemma activatePicks_sdiff_card_le (pick : ℕ → ℕ) (base : Finset String) :
    ∀ (fuel i : ℕ) (pool : List String) (acc : Finset String),
      ((activatePicks pick fuel i pool acc) \ base).card ≤ (acc \ base).card + fuel := by
  intro fuel
  induction fuel with
  | zero => intro i pool acc; simp [activatePicks]
  | succ fuel ih =>
    intro i pool acc
    unfold activatePicks
    cases hget : pool.get? (pick i) with
    | none => exact (ih (i + 1) pool acc).trans (by omega)
    | some id =>
      refine (ih (i + 1) (pool.eraseIdx (pick i)) (insert id acc)).trans ?_
      have := sdiff_card_insert_le id acc base
      omega

lemma numToActivate_le_rand (rand maxActive card : ℕ) :
    numToActivate rand maxActive card ≤ rand + 1 := by
  unfold numToActivate
  omega

lemma card_add_numToActivate_le (rand maxActive card : ℕ) :
    card + numToActivate rand maxActive card ≤ max maxActive card := by
  unfold numToActivate
  omega

lemma numToActivate_max_zero (rand card : ℕ) : numToActivate rand 0 card = 0 := by
  unfold numToActivate
  omega

end AGB

namespace AGB

lemma deactivationStep_subset (snap prev : Finset String) (draw : String → Bool) :
    deactivationStep snap prev draw ⊆ prev :=
  Finset.filter_subset _ prev

lemma mem_deactivationStep_of_not_mem_snap {snap prev : Finset String}
    {draw : String → Bool} {id : String} (hprev : id ∈ prev) (hsnap : id ∉ snap) :
    id ∈ deactivationStep snap prev draw := by
  simp [deactivationStep, hprev, hsnap]

lemma not_mem_deactivationStep {snap prev : Finset String} {draw : String → Bool}
    {id : String} (hsnap : id ∈ snap) (hdraw : draw id = true) :
    id ∉ deactivationStep snap prev draw := by
  simp [deactivationStep, hsnap, hdraw]

lemma subset_fgAfterRegular (squares : List Square) (active : Finset String)
    (maxA : ℕ) (d : FgDraws) : active ⊆ fgAfterRegular squares active maxA d := by
  unfold fgAfterRegular
  by_cases h : 0 < (inactiveRegularIds squares active).length
  · simp only [h, if_true]
    exact subset_activatePicks d.pickIdx _ 0 _ active
  · simp only [h, if_false]
    exact Finset.Subset.refl active

lemma fgAfterRegular_card_le (squares : List Square) (active : Finset String)
    (maxA : ℕ) (d : FgDraws) :
    (fgAfterRegular squares active maxA d).card ≤ max maxA active.card := by
  unfold fgAfterRegular
  by_cases h : 0 < (inactiveRegularIds squares active).length
  · simp only [h, if_true]
    refine (activatePicks_card_le d.pickIdx _ 0 _ active).trans ?_
    exact card_add_numToActivate_le d.r3 maxA active.card
  · simp only [h, if_false]
    omega

lemma fgAfterRegular_sdiff_card_le (squares : List Square) (active : Finset String)
    (maxA : ℕ) (d : FgDraws) :
    ((fgAfterRegular squares active maxA d) \ active).card ≤ d.r3 + 1 := by
  unfold fgAfterRegular
  by_cases h : 0 < (inactiveRegularIds squares active).length
  · simp only [h, if_true]
    refine (activatePicks_sdiff_card_le d.pickIdx active _ 0 _ active).trans ?_
    have h1 := numToActivate_le_rand d.r3 maxA active.card
    simp only [Finset.sdiff_self, Finset.card_empty]
    omega
  · simp only [h, if_false]
    simp

lemma subset_fgRound (squares : List Square) (active : Finset String)
    (maxA : ℕ) (d : FgDraws) : active ⊆ fgRound squares active maxA d := by
  unfold fgRound
  by_cases h : 0 < (inactiveCurvedIds squares active).length ∧ d.curvedFire = true
  · simp only [h, if_true]
    cases hget : (inactiveCurvedIds squares active).get? d.curvedIdx with
    | none => exact subset_fgAfterRegular squares active maxA d
    | some cid =>
      exact (subset_fgAfterRegular squares active maxA d).trans (Finset.subset_insert cid _)
  · simp only [h, if_false]
    exact subset_fgAfterRegular squares active maxA d

lemma fgRound_card_le (squares : List Square) (active : Finset String)
    (maxA : ℕ) (d : FgDraws) :
    (fgRound squares active maxA d).card ≤ max maxA active.card + 1 := by
  unfold fgRound
  have hbase := fgAfterRegular_card_le squares active maxA d
  by_cases h : 0 < (inactiveCurvedIds squares active).length ∧ d.curvedFire = true
  · rw [if_pos h]
    cases hget : (inactiveCurvedIds squares active).get? d.curvedIdx with
    | none =>
      show (fgAfterRegular squares active maxA d).card ≤ max maxA active.card + 1
      omega
    | some cid =>
      show (insert cid (fgAfterRegular squares active maxA d)).card ≤ max maxA active.card + 1
      have := Finset.card_insert_le cid (fgAfterRegular squares active maxA d)
      omega
  · rw [if_neg h]
    omega

lemma fgRound_sdiff_card_le (squares : List Square) (active : Finset String)
    (maxA : ℕ) (d : FgDraws) :
    ((fgRound squares active maxA d) \ active).card ≤ d.r3 + 2 := by
  unfold fgRound
  have hbase := fgAfterRegular_sdiff_card_le squares active maxA d
  by_cases h : 0 < (inactiveCurvedIds squares active).length ∧ d.curvedFire = true
  · rw [if_pos h]
    cases hget : (inactiveCurvedIds squares active).get? d.curvedIdx with
    | none =>
      show ((fgAfterRegular squares active maxA d) \ active).card ≤ d.r3 + 2
      omega
    | some cid =>
      show ((insert cid (fgAfterRegular squares active maxA d)) \ active).card ≤ d.r3 + 2
      have := sdiff_card_insert_le cid (fgAfterRegular squares active maxA d) active
      omega
  · rw [if_neg h]
    omega

lemma subset_bgRoundSet (bgSquares : List BackgroundSquare) (active : Finset String)
    (maxB : ℕ) (d : BgDraws) : active ⊆ bgRoundSet bgSquares active maxB d := by
  unfold bgRoundSet
  by_cases h : (inactiveBgIds bgSquares active).length = 0
  · simp only [h, if_true]
    exact Finset.Subset.refl active
  · simp only [h, if_false]
    exact subset_activatePicks d.pickIdx _ 0 _ active

lemma bgRoundSet_card_le (bgSquares : List BackgroundSquare) (active : Finset String)
    (maxB : ℕ) (d : BgDraws) :
    (bgRoundSet bgSquares active maxB d).card ≤ max maxB active.card := by
  unfold bgRoundSet
  by_cases h : (inactiveBgIds bgSquares active).length = 0
  · simp only [h, if_true]
    omega
  · simp only [h, if_false]
    refine (activatePicks_card_le d.pickIdx _ 0 _ active).trans ?_
    exact card_add_numToActivate_le d.r2 maxB active.card

lemma bgRoundSet_sdiff_card_le (bgSquares : List BackgroundSquare) (active : Finset String)
    (maxB : ℕ) (d : BgDraws) :
    ((bgRoundSet bgSquares active maxB d) \ active).card ≤ d.r2 + 1 := by
  unfold bgRoundSet
  by_cases h : (inactiveBgIds bgSquares active).length = 0
  · simp only [h, if_true]
    simp
  · simp only [h, if_false]
    refine (activatePicks_sdiff_card_le d.pickIdx active _ 0 _ active).trans ?_
    have h1 := numToActivate_le_rand d.r2 maxB active.card
    simp only [Finset.sdiff_self, Finset.card_empty]
    omega

lemma fireSim_active_subset (removeDraw : String → Bool) (s : LoopSim) :
    (fireSim removeDraw s).active ⊆ s.active := by
  rcases s with ⟨act, pending⟩
  cases pending with
  | nil => exact Finset.Subset.refl _
  | cons snap rest => exact deactivationStep_subset snap act removeDraw

lemma bgReach_card_le (bgSquares : List BackgroundSquare) (maxB : ℕ) :
    ∀ s, BgReach bgSquares maxB s → s.active.card ≤ maxB := by
  intro s h
  induction h with
  | init => simp
  | tick s d _ ih =>
    unfold bgTickSim
    by_cases hlen : (inactiveBgIds bgSquares s.active).length = 0
    · simp only [hlen, if_true]
      exact ih
    · simp only [hlen, if_false]
      have := bgRoundSet_card_le bgSquares s.active maxB d
      omega
  | fire s removeDraw _ ih =>
    have := Finset.card_le_card (fireSim_active_subset removeDraw s)
    omega

lemma fgAfterRegular_max_zero (squares : List Square) (active : Finset String)
    (d : FgDraws) : fgAfterRegular squares active 0 d = active := by
  unfold fgAfterRegular
  rw [numToActivate_max_zero]
  by_cases h : 0 < (inactiveRegularIds squares active).length
  · rw [if_pos h]
    rfl
  · rw [if_neg h]

lemma mem_inactiveCurvedIds {squares : List Square} {active : Finset String}
    {id : String} (h : id ∈ inactiveCurvedIds squares active) :
    ∃ sq ∈ squares, sq.id = id ∧ sq.isCurved = true := by
  simp only [inactiveCurvedIds, inactiveSquares, List.mem_map, List.mem_filter] at h
  obtain ⟨sq, ⟨⟨hmem, _⟩, hcurved⟩, hid⟩ := h
  exact ⟨sq, hmem, hid, hcurved⟩

lemma curvedShape_filter_eq (sq : Square) :
    decide (fgRenderShape sq = Shape.Rounded) = sq.isCurved := by
  cases h : sq.isCurved <;> simp [fgRenderShape, h]

end AGB

namespace AGB

/-- C1, counterexample: with the 2 by 2 layout, fg-0-0 active before the round
and the round freshly activating only fg-0-1, the round's own deactivation
step (all removal draws saying remove) deletes fg-0-0 — an id that was in the
active set before the round began and is not in the set of freshly activated
ids — contradicting the claim that such ids are left unchanged. -/
theorem C1_counterexample :
    "fg-0-0" ∈ ({"fg-0-0"} : Finset String) ∧
    "fg-0-0" ∉ fgRound sq22 {"fg-0-0"} 8 drawRegOnly \ {"fg-0-0"} ∧
    "fg-0-0" ∉
      deactivationStep (fgRound sq22 {"fg-0-0"} 8 drawRegOnly)
        (fgRound sq22 {"fg-0-0"} 8 drawRegOnly) (fun _ => true) := by
  decide

/-- C1 (amended): a round's deferred deactivation step removes ids only from
among the round's committed snapshot newActiveIds — which is the union of the
previously active ids and the freshly activated ones, not the freshly
activated ids alone.  Ids absent from the snapshot are left untouched; every
id of the snapshot still present, including ids active before the round
began, is removed exactly when its fresh draw says so. -/
theorem C1_deactivation_scope (snap prev : Finset String) (removeDraw : String → Bool) :
    deactivationStep snap prev removeDraw ⊆ prev ∧
    (∀ id ∈ prev, id ∉ snap → id ∈ deactivationStep snap prev removeDraw) ∧
    (∀ id ∈ prev, id ∈ snap → removeDraw id = true →
      id ∉ deactivationStep snap prev removeDraw) :=
  ⟨deactivationStep_subset snap prev removeDraw,
   fun _ hprev hsnap => mem_deactivationStep_of_not_mem_snap hprev hsnap,
   fun _ _ hsnap hdraw => not_mem_deactivationStep hsnap hdraw⟩

/-- Witness for C1_deactivation_scope at a concrete input. -/
theorem C1_deactivation_scope_witness :
    "fg-1-1" ∈ ({"fg-0-0", "fg-1-1"} : Finset String) ∧
    "fg-1-1" ∉ ({"fg-0-0"} : Finset String) ∧
    "fg-1-1" ∈ deactivationStep {"fg-0-0"} {"fg-0-0", "fg-1-1"} (fun _ => true) :=
  ⟨by decide, by decide,
   (C1_deactivation_scope {"fg-0-0"} {"fg-0-0", "fg-1-1"} (fun _ => true)).2.1
     "fg-1-1" (by decide) (by decide)⟩

/-- C2: the effect cleanup is () => clearInterval(interval) only, so a
deferred deactivation scheduled before teardown still fires afterwards and
mutates the active-id set: from teardownStart, cleanup cancels the interval
yet leaves the pending setTimeout, and firing it changes the active set.
This exhibits the update-after-teardown the claim (and the spec) rule out. -/
theorem C2_update_after_teardown :
    (cleanup teardownStart).intervalActive = false ∧
    (cleanup teardownStart).pending.length = 1 ∧
    (fireTimeout (cleanup teardownStart)).active ≠ (cleanup teardownStart).active := by
  refine ⟨rfl, rfl, ?_⟩
  decide

/-- C3, counterexample: over the all-curved 1 by 2 layout with
maxActiveSquares = 0, the state after tick, deactivation-keeping-all, tick is
reachable and holds 2 active ids, exceeding maxActiveSquares + 1.  The curved
path can therefore push the set more than one over the cap across rounds. -/
theorem C3_counterexample :
    FgReach curvedOnly12 0 fgOverCapState ∧ 0 + 1 < fgOverCapState.active.card :=
  ⟨FgReach.tick _ drawCurved
      (FgReach.fire _ (fun _ => false)
        (FgReach.tick _ drawCurved FgReach.init)),
   by decide⟩

/-- C3 (amended): starting a round at or below the cap, the regular-cell path
alone never brings the set above maxActiveSquares, and the full round — with
the independent curved-cell pick — ends at most one above maxActiveSquares.
The one-over bound is per round only: across several rounds the curved path
can accumulate a higher excess (see the counterexample). -/
theorem C3_single_round_cap (squares : List Square) (active : Finset String)
    (maxA : ℕ) (d : FgDraws) (h : active.card ≤ maxA) :
    (fgAfterRegular squares active maxA d).card ≤ maxA ∧
    (fgRound squares active maxA d).card ≤ maxA + 1 := by
  have h1 := fgAfterRegular_card_le squares active maxA d
  have h2 := fgRound_card_le squares active maxA d
  omega

/-- Witness for C3_single_round_cap at a concrete input. -/
theorem C3_single_round_cap_witness :
    (∅ : Finset String).card ≤ 0 ∧
    ((fgAfterRegular curvedOnly12 ∅ 0 drawCurved).card ≤ 0 ∧
      (fgRound curvedOnly12 ∅ 0 drawCurved).card ≤ 0 + 1) :=
  ⟨by decide, C3_single_round_cap curvedOnly12 ∅ 0 drawCurved (by decide)⟩

/-- C4: the background cap is hard — in every state reachable from the empty
background active-id set by background activation rounds and deactivation
steps, in any order and under any random draws, the active set holds at most
maxBackgroundActive ids. -/
theorem C4_bg_hard_cap (bgSquares : List BackgroundSquare) (maxB : ℕ)
    (s : LoopSim) (h : BgReach bgSquares maxB s) : s.active.card ≤ maxB :=
  bgReach_card_le bgSquares maxB s h

/-- Witness for C4_bg_hard_cap at a concrete reachable state. -/
theorem C4_bg_hard_cap_witness :
    (bgTickSim bg11 3 { r2 := 0, pickIdx := fun _ => 0 }
      { active := ∅, pending := [] }).active.card ≤ 3 :=
  C4_bg_hard_cap bg11 3 _
    (BgReach.tick _ { r2 := 0, pickIdx := fun _ => 0 } BgReach.init)

/-- C5, counterexample: ids are purely positional, so a stale id can match a
cell of the regenerated layout: fg-0-0 is an id of the old 2 by 2 layout
(hence can be in the active set when the configuration changes) and is also
the id of a cell of the newly generated 1 by 1 layout, contradicting the
claim that every stale id fails to match any new cell. -/
theorem C5_counterexample :
    "fg-0-0" ∈ (generateFgSquares 2 2 ∅ cdZero).map (fun sq => sq.id) ∧
    "fg-0-0" ∈ (generateFgSquares 1 1 ∅ cdZero).map (fun sq => sq.id) := by
  constructor
  · rw [fg_ids]
    decide
  · rw [fg_ids]
    decide

/-- C5 (amended): after regeneration a stale id fg-r-c matches a cell of the
new layout exactly when its coordinates lie inside the new grid (r < rows and
c < cols); only out-of-bounds stale ids never match, since the id scheme is
positional with no generation tag. -/
theorem C5_stale_id_matches_iff (r c rows cols : ℕ) (S : Finset ℕ) (cd : ℕ → ℕ) :
    fgId r c ∈ (generateFgSquares rows cols S cd).map (fun sq => sq.id) ↔
      r < rows ∧ c < cols := by
  rw [fg_ids]
  simp only [List.mem_flatMap, List.mem_map, List.mem_range]
  constructor
  · rintro ⟨r', hr', c', hc', heq⟩
    obtain ⟨h1, h2⟩ := fgId_inj heq
    exact ⟨h1 ▸ hr', h2 ▸ hc'⟩
  · rintro ⟨hr, hc⟩
    exact ⟨r, hr, c, hc, rfl⟩

end AGB

namespace AGB

/-- C6: for every configuration with curvedPercentage at most 100 (and a
sampling-loop run that terminated within its draw list, each draw below
totalSquares as Math.floor(Math.random() * totalSquares) guarantees), the
generated foreground layout has exactly rows * cols cells, pairwise distinct
ids fg-row-col, and exactly floor(rows * cols * curvedPercentage / 100) cells
rendered Rounded; in particular rows = 2, cols = 2, curvedPercentage = 0
yields the 4 cells with id list fg-0-0, fg-0-1, fg-1-0, fg-1-1 and no curved
cell. -/
theorem C6_fg_layout (rows cols p : ℕ) (cd : ℕ → ℕ) (draws : List ℕ)
    (_hp : p ≤ 100)
    (hdr : ∀ k ∈ draws, k < rows * cols)
    (hterm : (buildCurvedIndices draws (curvedCount rows cols p) ∅).card =
      curvedCount rows cols p) :
    (generateFgSquares rows cols (buildCurvedIndices draws (curvedCount rows cols p) ∅)
        cd).length = rows * cols ∧
    ((generateFgSquares rows cols (buildCurvedIndices draws (curvedCount rows cols p) ∅)
        cd).map (fun sq => sq.id)).Nodup ∧
    ((generateFgSquares rows cols (buildCurvedIndices draws (curvedCount rows cols p) ∅)
        cd).filter fun sq => decide (fgRenderShape sq = Shape.Rounded)).length =
      rows * cols * p / 100 ∧
    (generateFgSquares 2 2 (buildCurvedIndices [] (curvedCount 2 2 0) ∅) cd).map
        (fun sq => sq.id) = ["fg-0-0", "fg-0-1", "fg-1-0", "fg-1-1"] := by
  refine ⟨length_generateFgSquares _ _ _ _, fg_ids_nodup _ _ _ _, ?_, ?_⟩
  · have hpred : (fun sq => decide (fgRenderShape sq = Shape.Rounded)) =
        (fun sq : Square => sq.isCurved) := by
      funext sq
      exact curvedShape_filter_eq sq
    rw [hpred, fg_curved_filter]
    have hsub : buildCurvedIndices draws (curvedCount rows cols p) ∅ ⊆
        Finset.range (rows * cols) := by
      refine (buildCurvedIndices_subset draws _ ∅).trans ?_
      intro x hx
      simp only [Finset.empty_union, List.mem_toFinset] at hx
      exact Finset.mem_range.mpr (hdr x hx)
    rw [Finset.inter_eq_left.mpr hsub, hterm]
    rfl
  · rw [fg_ids]
    decide

/-- Witness for C6_fg_layout at a concrete input: rows = 2, cols = 2,
curvedPercentage = 50, sampling draws 0 then 1. -/
theorem C6_fg_layout_witness :
    ((50 : ℕ) ≤ 100 ∧ (∀ k ∈ [0, 1], k < 2 * 2) ∧
      (buildCurvedIndices [0, 1] (curvedCount 2 2 50) ∅).card = curvedCount 2 2 50) ∧
    ((generateFgSquares 2 2 (buildCurvedIndices [0, 1] (curvedCount 2 2 50) ∅)
        cdZero).length = 2 * 2 ∧
      ((generateFgSquares 2 2 (buildCurvedIndices [0, 1] (curvedCount 2 2 50) ∅)
        cdZero).map (fun sq => sq.id)).Nodup ∧
      ((generateFgSquares 2 2 (buildCurvedIndices [0, 1] (curvedCount 2 2 50) ∅)
        cdZero).filter fun sq => decide (fgRenderShape sq = Shape.Rounded)).length =
        2 * 2 * 50 / 100 ∧
      (generateFgSquares 2 2 (buildCurvedIndices [] (curvedCount 2 2 0) ∅) cdZero).map
        (fun sq => sq.id) = ["fg-0-0", "fg-0-1", "fg-1-0", "fg-1-1"]) :=
  ⟨⟨by decide, by decide, by decide⟩,
   C6_fg_layout 2 2 50 cdZero [0, 1] (by decide) (by decide) (by decide)⟩

/-- C7: for every configuration the generated background layout has exactly
backgroundRows * backgroundCols cells, with pairwise distinct ids, and every
cell renders Regular (background cells carry no curved variant at all). -/
theorem C7_bg_layout (bgRows bgCols : ℕ) (cd : ℕ → ℕ) :
    (generateBgSquares bgRows bgCols cd).length = bgRows * bgCols ∧
    ((generateBgSquares bgRows bgCols cd).map (fun sq => sq.id)).Nodup ∧
    ∀ sq ∈ generateBgSquares bgRows bgCols cd, bgRenderShape sq = Shape.Regular :=
  ⟨length_generateBgSquares bgRows bgCols cd, bg_ids_nodup bgRows bgCols cd,
   fun _ _ => rfl⟩

/-- Witness for C7_bg_layout at a concrete input. -/
theorem C7_bg_layout_witness :
    (generateBgSquares 1 2 cdZero).length = 1 * 2 ∧
    ((generateBgSquares 1 2 cdZero).map (fun sq => sq.id)).Nodup ∧
    ∀ sq ∈ generateBgSquares 1 2 cdZero, bgRenderShape sq = Shape.Regular :=
  C7_bg_layout 1 2 cdZero

/-- C8: with maxActiveSquares = 0 the regular budget is nonpositive in every
round, so every id a round newly activates is the id of a curved cell of the
layout; and the curved path still activates — whenever its 0.3-probability
draw fires and its index draw picks an inactive curved id, that id is in the
round's committed set, cap notwithstanding. -/
theorem C8_max_zero_curved_only (squares : List Square) (active : Finset String)
    (d : FgDraws) :
    (∀ id ∈ fgRound squares active 0 d, id ∉ active →
      ∃ sq ∈ squares, sq.id = id ∧ sq.isCurved = true) ∧
    (d.curvedFire = true →
      ∀ cid, (inactiveCurvedIds squares active).get? d.curvedIdx = some cid →
        cid ∈ fgRound squares active 0 d) := by
  have hreg := fgAfterRegular_max_zero squares active d
  constructor
  · intro id hid hnot
    unfold fgRound at hid
    rw [hreg] at hid
    by_cases h : 0 < (inactiveCurvedIds squares active).length ∧ d.curvedFire = true
    · rw [if_pos h] at hid
      cases hget : (inactiveCurvedIds squares active).get? d.curvedIdx with
      | none =>
        rw [hget] at hid
        exact absurd hid hnot
      | some cid =>
        rw [hget] at hid
        rcases Finset.mem_insert.mp hid with rfl | hid'
        · exact mem_inactiveCurvedIds (List.get?_mem hget)
        · exact absurd hid' hnot
    · rw [if_neg h] at hid
      exact absurd hid hnot
  · intro hfire cid hget
    have hlen : 0 < (inactiveCurvedIds squares active).length :=
      List.length_pos.mpr (List.ne_nil_of_mem (List.get?_mem hget))
    unfold fgRound
    rw [if_pos ⟨hlen, hfire⟩, hget]
    exact Finset.mem_insert_self cid _

/-- Witness for C8_max_zero_curved_only: over the all-curved 1 by 2 layout
with empty active set and cap 0, the firing curved path activates fg-0-0. -/
theorem C8_max_zero_curved_only_witness :
    drawCurved.curvedFire = true ∧ "fg-0-0" ∈ fgRound curvedOnly12 ∅ 0 drawCurved :=
  ⟨rfl, (C8_max_zero_curved_only curvedOnly12 ∅ drawCurved).2 rfl "fg-0-0" (by decide)⟩

/-- C9: an activation round only adds: for both layers and every state and
draw outcome, the committed active-id set of the round contains the set the
round started from. -/
theorem C9_round_monotone (squares : List Square) (active : Finset String)
    (maxA : ℕ) (d : FgDraws) (bgSquares : List BackgroundSquare)
    (bactive : Finset String) (maxB : ℕ) (bd : BgDraws) :
    active ⊆ fgRound squares active maxA d ∧
    bactive ⊆ bgRoundSet bgSquares bactive maxB bd :=
  ⟨subset_fgRound squares active maxA d, subset_bgRoundSet bgSquares bactive maxB bd⟩

/-- Witness for C9_round_monotone at a concrete input. -/
theorem C9_round_monotone_witness :
    ({"fg-0-0"} : Finset String) ⊆ fgRound sq22 {"fg-0-0"} 8 drawRegOnly ∧
    ({"bg-0-0"} : Finset String) ⊆
      bgRoundSet bg11 {"bg-0-0"} 3 { r2 := 0, pickIdx := fun _ => 0 } :=
  C9_round_monotone sq22 {"fg-0-0"} 8 drawRegOnly bg11 {"bg-0-0"} 3
    { r2 := 0, pickIdx := fun _ => 0 }

/-- C10: under the source's draw ranges (the regular-count draw below 3, the
background-count draw below 2), one foreground round adds at most 4 ids (at
most 3 regular plus at most 1 curved) and one background round adds at most
2, for every state. -/
theorem C10_round_addition_bound (squares : List Square) (active : Finset String)
    (maxA : ℕ) (d : FgDraws) (bgSquares : List BackgroundSquare)
    (bactive : Finset String) (maxB : ℕ) (bd : BgDraws)
    (h3 : d.r3 < 3) (h2 : bd.r2 < 2) :
    ((fgRound squares active maxA d) \ active).card ≤ 4 ∧
    ((bgRoundSet bgSquares bactive maxB bd) \ bactive).card ≤ 2 := by
  have hfg := fgRound_sdiff_card_le squares active maxA d
  have hbg := bgRoundSet_sdiff_card_le bgSquares bactive maxB bd
  omega

/-- Witness for C10_round_addition_bound at a concrete input with the extreme
draws r3 = 2 and r2 = 1. -/
theorem C10_round_addition_bound_witness :
    ((2 : ℕ) < 3 ∧ (1 : ℕ) < 2) ∧
    (((fgRound sq22 ∅ 8 { r3 := 2, pickIdx := (fun _ => 0), curvedFire := true, curvedIdx := 0 }) \ ∅).card ≤ 4 ∧
      ((bgRoundSet bg11 ∅ 3 { r2 := 1, pickIdx := fun _ => 0 }) \ ∅).card ≤ 2) :=
  ⟨⟨by decide, by decide⟩,
   C10_round_addition_bound sq22 ∅ 8
     { r3 := 2, pickIdx := (fun _ => 0), curvedFire := true, curvedIdx := 0 }
     bg11 ∅ 3 { r2 := 1, pickIdx := fun _ => 0 } (by decide) (by decide)⟩

end AGB
